import Mathlib

/-!
Verification of the variant-generation core of
`packages/dashboard/src/app/routes/_authenticated/_products/components/create-product-variants.tsx`.

The development shallowly embeds the three pieces of logic in that file:
`generateVariants` (with its inner recursive `generateCombinations`), the
reconciliation effect that merges freshly generated variants into the live
form record, and the output-filtering emission performed inside the
`form.watch` subscription.  JavaScript string joining, object lookup and
array iteration are modelled by explicit executable Lean functions.
-/

set_option linter.unusedVariables false

/-- One option value `\x7b value, id \x7d` of an option group, as supplied at the
input boundary. -/
structure OptionValue where
  value : String
  id : String
deriving DecidableEq, Repr

/-- An option group `\x7b name, values \x7d` as consumed by `generateVariants`. -/
structure OptionGroup where
  name : String
  values : List OptionValue
deriving DecidableEq, Repr

/-- `VariantOption` from the source: one selected value of one group inside a
combination. -/
structure VariantOption where
  name : String
  value : String
  id : String
deriving DecidableEq, Repr

/-- `GeneratedVariant` from the source. -/
structure GeneratedVariant where
  id : String
  name : String
  values : List String
  options : List VariantOption
  enabled : Bool
  sku : String
  price : String
  stock : String
deriving DecidableEq, Repr

/-- JavaScript `Array.prototype.join(sep)` on a list of strings. -/
def joinSep (sep : String) : List String → String
  | [] => ""
  | [s] => s
  | s :: rest => s ++ sep ++ joinSep sep rest

/-- Validity test from line 375 of the source:
`group.name && group.values && group.values.length > 0`.  A string is truthy
exactly when it is non-empty, and `values` is always an array here. -/
def isValidGroup (group : OptionGroup) : Bool :=
  group.name != "" && decide (0 < group.values.length)

/-- The default variant returned when there is no valid option group
(lines 362-373 and 377-388 of the source). -/
def defaultVariant : GeneratedVariant :=
  { id := "default", name := "", values := [], options := [],
    enabled := true, sku := "", price := "", stock := "" }

/-- The variant built from a complete combination, lines 396-407 of the
source: ids joined by a dash, values joined by a space. -/
def mkCombinationVariant (currentCombination : List VariantOption) : GeneratedVariant :=
  { id := joinSep ("-") (currentCombination.map VariantOption.id)
    name := joinSep (" ") (currentCombination.map VariantOption.value)
    values := currentCombination.map VariantOption.value
    options := currentCombination
    enabled := true, sku := "", price := "", stock := "" }

/-- The recursive `generateCombinations` of lines 390-424.  The source
recurses on `currentIndex` over a fixed array; here the not-yet-consumed
suffix of the group list plays the role of `optionGroups[currentIndex..]`,
and the `forEach`/`push` loop is concatenation in order, i.e. `flatMap`. -/
def generateCombinations :
    List OptionGroup → List VariantOption → List GeneratedVariant
  | [], currentCombination => [mkCombinationVariant currentCombination]
  | currentGroup :: restGroups, currentCombination =>
      currentGroup.values.flatMap fun optionValue =>
        generateCombinations restGroups
          (currentCombination ++
            [{ name := currentGroup.name, value := optionValue.value,
               id := optionValue.id }])

/-- `generateVariants`, lines 360-427 of the source. -/
def generateVariants (groups : List OptionGroup) : List GeneratedVariant :=
  if groups.length = 0 then [defaultVariant]
  else
    let validGroups := groups.filter isValidGroup
    if validGroups.length = 0 then [defaultVariant]
    else generateCombinations validGroups []

/-- The per-variant editable form entry (`VariantForm` in the source). -/
structure VariantForm where
  enabled : Bool
  sku : String
  price : String
  stock : String
deriving DecidableEq, Repr

/-- The value a newly generated id is initialised to, lines 150-155. -/
def initialVariantForm : VariantForm :=
  { enabled := true, sku := "", price := "", stock := "" }

/-- JavaScript object lookup `record[id]`, on an insertion-ordered list of
key-value pairs. -/
def lookupId (id : String) : List (String × α) → Option α
  | [] => none
  | (key, v) :: rest => if key = id then some v else lookupId id rest

/-- The reconciliation effect of lines 144-160: spread the current record,
then walk the generated variants and add an initial entry for every id not
already present.  Object spread plus key insertion is appending to the
insertion-ordered pair list. -/
def reconcileVariants (currentVariants : List (String × VariantForm))
    (variants : List GeneratedVariant) : List (String × VariantForm) :=
  variants.foldl
    (fun updatedVariants variant =>
      if (lookupId variant.id updatedVariants).isSome then updatedVariants
      else updatedVariants ++ [(variant.id, initialVariantForm)])
    currentVariants

/-- A form entry as observed through `form.watch`, whose value is deeply
partial: every field may be missing. -/
structure WatchVariantForm where
  enabled : Option Bool
  sku : Option String
  price : Option String
  stock : Option String
deriving DecidableEq, Repr

/-- One element of the emitted `variants` payload. -/
structure OutputVariant where
  enabled : Bool
  sku : String
  price : String
  stock : String
  options : List VariantOption
deriving DecidableEq, Repr

/-- The row pushed for a matched variant, lines 122-128: each possibly
missing field is defaulted with `??`. -/
def outputRow (formVariant : WatchVariantForm) (variant : GeneratedVariant) :
    OutputVariant :=
  { enabled := formVariant.enabled.getD true
    sku := formVariant.sku.getD ""
    price := formVariant.price.getD ""
    stock := formVariant.stock.getD ""
    options := variant.options }

/-- The output-filtering stage of lines 113-131: walk the generated variants
in order and push a row for each id found in the watched form record,
skipping the others.  (The `variant && typeof variant === 'object'` guard is
always satisfied in the typed model.) -/
def emitVariants (formVariants : List (String × WatchVariantForm))
    (variants : List GeneratedVariant) : List OutputVariant :=
  variants.foldl
    (fun activeVariants variant =>
      match lookupId variant.id formVariants with
      | some formVariant => activeVariants ++ [outputRow formVariant variant]
      | none => activeVariants)
    []

/-- Modelled from the spec: the ordered Cartesian product in lexicographic
order, first list varying slowest.  This is the spec-side description that
`generateCombinations` is compared against. -/
def specLexProduct : List (List α) → List (List α)
  | [] => [[]]
  | choices :: rest =>
      choices.flatMap fun c => (specLexProduct rest).map fun tail => c :: tail

/-- The list of `VariantOption` selections contributed by one group. -/
def groupOptions (group : OptionGroup) : List VariantOption :=
  group.values.map fun v => { name := group.name, value := v.value, id := v.id }

/-- A pair of valid groups whose value ids are unique within each group but
whose dash-joined combination ids collide: the value id containing a dash
makes the join ambiguous. -/
def collidingGroups : List OptionGroup :=
  [{ name := "A",
     values := [{ value := "va", id := "x" }, { value := "vb", id := "x-y" }] },
   { name := "B",
     values := [{ value := "vc", id := "y-z" }, { value := "vd", id := "z" }] }]

/-- `generateCombinations` computes exactly the lexicographic Cartesian
product of the group option lists, each combination appended to the
accumulator and packaged by `mkCombinationVariant`. -/
theorem generateCombinations_eq (gs : List OptionGroup) (acc : List VariantOption) :
    generateCombinations gs acc =
      (specLexProduct (gs.map groupOptions)).map
        fun c => mkCombinationVariant (acc ++ c) := by
  induction gs generalizing acc with
  | nil => simp [generateCombinations, specLexProduct]
  | cons g rest ih =>
      simp only [generateCombinations, specLexProduct, List.map_cons,
        List.map_flatMap, List.map_map, groupOptions, List.flatMap_map]
      refine List.flatMap_congr fun v hv => ?_
      rw [ih]
      refine List.map_congr_left fun c hc => ?_
      simp [Function.comp, List.append_assoc]

/-- The lexicographic product has as many elements as the product of the
sizes of the choice lists. -/
theorem specLexProduct_length (lss : List (List α)) :
    (specLexProduct lss).length = (lss.map List.length).prod := by
  induction lss with
  | nil => rfl
  | cons xs rest ih =>
      simp only [specLexProduct, List.length_flatMap, List.map_cons,
        List.prod_cons]
      have h : (List.length ∘ fun c : α =>
          List.map (fun tail => c :: tail) (specLexProduct rest)) =
            fun _ => (specLexProduct rest).length := by
        funext c
        simp
      rw [h, List.map_const', List.sum_replicate, smul_eq_mul, ih]

/-- C1: the number of variants returned by generateVariants is the product
of the value-list sizes of the valid groups, which is 1 when there are no
valid groups. -/
theorem generateVariants_length (groups : List OptionGroup) :
    (generateVariants groups).length =
      ((groups.filter isValidGroup).map fun g => g.values.length).prod := by
  unfold generateVariants
  by_cases h0 : groups.length = 0
  · rw [List.length_eq_zero] at h0
    subst h0
    simp
  · simp only [h0, if_false]
    by_cases h1 : (groups.filter isValidGroup).length = 0
    · rw [List.length_eq_zero] at h1
      simp [h1]
    · simp only [h1, if_false]
      rw [generateCombinations_eq, List.length_map, specLexProduct_length,
        List.map_map]
      refine congrArg List.prod (List.map_congr_left fun g hg => ?_)
      simp [Function.comp, groupOptions]

/-- C2: when the group list is empty or has no valid group, generateVariants
returns exactly the single default variant. -/
theorem generateVariants_default (groups : List OptionGroup)
    (h : groups = [] ∨ ∀ g ∈ groups, isValidGroup g = false) :
    generateVariants groups = [defaultVariant] := by
  rcases h with h | h
  · subst h; rfl
  · unfold generateVariants
    by_cases h0 : groups.length = 0
    · simp [h0]
    · have hf : groups.filter isValidGroup = [] :=
        List.filter_eq_nil_iff.mpr fun g hg => by simp [h g hg]
      simp [h0, hf]

/-- Witness for C2 at a concrete invalid-group input. -/
theorem generateVariants_default_witness :
    (([{ name := "", values := [{ value := "v", id := "i" }] }] : List OptionGroup) = [] ∨
      ∀ g ∈ ([{ name := "", values := [{ value := "v", id := "i" }] }] : List OptionGroup),
        isValidGroup g = false) ∧
    generateVariants [{ name := "", values := [{ value := "v", id := "i" }] }] =
      [defaultVariant] :=
  ⟨Or.inr (by decide), generateVariants_default _ (Or.inr (by decide))⟩

/-- C3: generateVariants keeps the valid groups in their original relative
order (the filtered list is a sublist of the input) and, when a valid group
exists, returns exactly the lexicographic Cartesian product of their values,
first group varying slowest, packaged by mkCombinationVariant. -/
theorem generateVariants_lexProduct (groups : List OptionGroup) :
    List.Sublist (groups.filter isValidGroup) groups ∧
    generateVariants groups =
      (if (groups.filter isValidGroup).length = 0 then [defaultVariant]
       else
        (specLexProduct ((groups.filter isValidGroup).map groupOptions)).map
          mkCombinationVariant) := by
  refine ⟨List.filter_sublist groups, ?_⟩
  unfold generateVariants
  by_cases h0 : groups.length = 0
  · rw [List.length_eq_zero] at h0
    subst h0
    simp
  · simp only [h0, if_false]
    by_cases h1 : (groups.filter isValidGroup).length = 0
    · simp [h1]
    · simp only [h1, if_false]
      rw [generateCombinations_eq]
      simp

/-- Looking an id up in a concatenated record tries the left part first. -/
theorem lookupId_append (id : String) (l1 l2 : List (String × α)) :
    lookupId id (l1 ++ l2) =
      match lookupId id l1 with
      | some v => some v
      | none => lookupId id l2 := by
  induction l1 with
  | nil => rfl
  | cons p rest ih =>
      obtain ⟨key, v⟩ := p
      by_cases h : key = id <;> simp [lookupId, h, ih]

/-- Unfolding one reconciliation step. -/
theorem reconcileVariants_cons (record : List (String × VariantForm))
    (v : GeneratedVariant) (rest : List GeneratedVariant) :
    reconcileVariants record (v :: rest) =
      reconcileVariants
        (if (lookupId v.id record).isSome then record
         else record ++ [(v.id, initialVariantForm)]) rest := rfl

/-- Reconciliation never changes an id that is already present. -/
theorem reconcileVariants_preserve (variants : List GeneratedVariant)
    (record : List (String × VariantForm)) (id0 : String)
    (h : (lookupId id0 record).isSome) :
    lookupId id0 (reconcileVariants record variants) = lookupId id0 record := by
  induction variants generalizing record with
  | nil => rfl
  | cons v rest ih =>
      rw [reconcileVariants_cons]
      by_cases hv : (lookupId v.id record).isSome
      · rw [if_pos hv]
        exact ih record h
      · rw [if_neg hv]
        have hpres : lookupId id0 (record ++ [(v.id, initialVariantForm)]) =
            lookupId id0 record := by
          rw [lookupId_append]
          obtain ⟨w, hw⟩ := Option.isSome_iff_exists.mp h
          simp [hw]
        rw [ih (record ++ [(v.id, initialVariantForm)]) (by rw [hpres]; exact h),
          hpres]

/-- Reconciliation only ever appends fresh initial entries to the record. -/
theorem reconcileVariants_append (record : List (String × VariantForm))
    (variants : List GeneratedVariant) :
    ∃ added, reconcileVariants record variants = record ++ added ∧
      ∀ p ∈ added, p.2 = initialVariantForm := by
  induction variants generalizing record with
  | nil => exact ⟨[], by simp [reconcileVariants], by simp⟩
  | cons v rest ih =>
      rw [reconcileVariants_cons]
      by_cases hv : (lookupId v.id record).isSome
      · rw [if_pos hv]
        exact ih record
      · rw [if_neg hv]
        obtain ⟨added, heq, hall⟩ := ih (record ++ [(v.id, initialVariantForm)])
        refine ⟨(v.id, initialVariantForm) :: added, ?_, ?_⟩
        · rw [heq, List.append_assoc]
          rfl
        · intro p hp
          rcases List.mem_cons.mp hp with h | h
          · rw [h]
          · exact hall p h

/-- The reconciled value of every generated id: the previous value when the
id existed, the initial form otherwise. -/
theorem reconcileVariants_lookup_go (variants : List GeneratedVariant)
    (record : List (String × VariantForm)) (v : GeneratedVariant)
    (hv : v ∈ variants) :
    lookupId v.id (reconcileVariants record variants) =
      some ((lookupId v.id record).getD initialVariantForm) := by
  induction variants generalizing record with
  | nil => cases hv
  | cons w rest ih =>
      rw [reconcileVariants_cons]
      rcases List.mem_cons.mp hv with heq | hmem
      · subst heq
        by_cases hw : (lookupId v.id record).isSome
        · rw [if_pos hw]
          rw [reconcileVariants_preserve rest record v.id hw]
          obtain ⟨f, hf⟩ := Option.isSome_iff_exists.mp hw
          simp [hf]
        · rw [if_neg hw]
          rw [Option.not_isSome_iff_eq_none] at hw
          have hsome : lookupId v.id (record ++ [(v.id, initialVariantForm)]) =
              some initialVariantForm := by
            rw [lookupId_append]
            simp [hw, lookupId]
          rw [reconcileVariants_preserve rest _ v.id (by rw [hsome]; rfl), hsome,
            hw]
          rfl
      · by_cases hw : (lookupId w.id record).isSome
        · rw [if_pos hw]
          exact ih record hmem
        · rw [if_neg hw]
          rw [ih _ hmem]
          congr 1
          rw [lookupId_append]
          cases hrec : lookupId v.id record with
          | some f => simp
          | none =>
              by_cases hid : w.id = v.id <;> simp [lookupId, hid]

/-- C5: after reconciliation every generated id has an entry; ids that were
already present keep their previous value, new ids are initialised to
initialVariantForm. -/
theorem reconcileVariants_spec (currentVariants : List (String × VariantForm))
    (variants : List GeneratedVariant) :
    ∀ v ∈ variants,
      lookupId v.id (reconcileVariants currentVariants variants) =
        some ((lookupId v.id currentVariants).getD initialVariantForm) :=
  fun v hv => reconcileVariants_lookup_go variants currentVariants v hv

/-- Witness for C5: a previous record with one edited entry, a generated
list that keeps that id and introduces a fresh one. -/
theorem reconcileVariants_spec_witness :
    ({ id := "a2-b1", name := "", values := [], options := [],
       enabled := true, sku := "", price := "", stock := "" } : GeneratedVariant) ∈
      ([{ id := "a1-b1", name := "", values := [], options := [],
          enabled := true, sku := "", price := "", stock := "" },
        { id := "a2-b1", name := "", values := [], options := [],
          enabled := true, sku := "", price := "", stock := "" }] :
        List GeneratedVariant) ∧
    lookupId "a2-b1"
        (reconcileVariants
          [("a1-b1", { enabled := false, sku := "X", price := "9", stock := "2" })]
          [{ id := "a1-b1", name := "", values := [], options := [],
             enabled := true, sku := "", price := "", stock := "" },
           { id := "a2-b1", name := "", values := [], options := [],
             enabled := true, sku := "", price := "", stock := "" }]) =
      some ((lookupId "a2-b1"
        [("a1-b1",
          ({ enabled := false, sku := "X", price := "9", stock := "2" } :
            VariantForm))]).getD initialVariantForm) :=
  ⟨by decide,
    reconcileVariants_spec
      [("a1-b1", { enabled := false, sku := "X", price := "9", stock := "2" })]
      [{ id := "a1-b1", name := "", values := [], options := [],
         enabled := true, sku := "", price := "", stock := "" },
       { id := "a2-b1", name := "", values := [], options := [],
         enabled := true, sku := "", price := "", stock := "" }]
      { id := "a2-b1", name := "", values := [], options := [],
        enabled := true, sku := "", price := "", stock := "" }
      (by decide)⟩

/-- The emission loop is the in-order filterMap of the generated list
through the watched record. -/
theorem emitVariants_eq_filterMap
    (formVariants : List (String × WatchVariantForm))
    (variants : List GeneratedVariant) :
    emitVariants formVariants variants =
      variants.filterMap fun variant =>
        (lookupId variant.id formVariants).map fun f => outputRow f variant := by
  suffices h : ∀ (vs : List GeneratedVariant) (acc : List OutputVariant),
      vs.foldl
        (fun activeVariants variant =>
          match lookupId variant.id formVariants with
          | some formVariant => activeVariants ++ [outputRow formVariant variant]
          | none => activeVariants) acc =
      acc ++ vs.filterMap fun variant =>
        (lookupId variant.id formVariants).map fun f => outputRow f variant by
    simpa using h variants []
  intro vs
  induction vs with
  | nil => intro acc; simp
  | cons v rest ih =>
      intro acc
      cases hv : lookupId v.id formVariants with
      | some f =>
          simp [List.foldl_cons, hv, ih, List.filterMap_cons, List.append_assoc]
      | none =>
          simp [List.foldl_cons, hv, ih, List.filterMap_cons]

/-- The options field of an emitted row is copied from the variant. -/
theorem outputRow_options (f : WatchVariantForm) (v : GeneratedVariant) :
    (outputRow f v).options = v.options := rfl

/-- The options of the emitted rows are exactly the options of the generated
variants whose id matches the record, in generator order. -/
theorem emitVariants_options (formVariants : List (String × WatchVariantForm))
    (variants : List GeneratedVariant) :
    (emitVariants formVariants variants).map OutputVariant.options =
      (variants.filter fun v => (lookupId v.id formVariants).isSome).map
        GeneratedVariant.options := by
  rw [emitVariants_eq_filterMap]
  induction variants with
  | nil => rfl
  | cons v rest ih =>
      cases hv : lookupId v.id formVariants with
      | some f =>
          simp [List.filterMap_cons, List.filter_cons, hv, ih, outputRow_options]
      | none =>
          simp [List.filterMap_cons, List.filter_cons, hv, ih]

/-- C6: the emitted variants sequence is the in-order filterMap of the
generated list through the edited record: only generated variants with a
matching record entry produce a row, rows appear in generator order, and a
generated id absent from the record is skipped with no row. -/
theorem emitVariants_filter_spec
    (formVariants : List (String × WatchVariantForm))
    (variants : List GeneratedVariant) :
    emitVariants formVariants variants =
      (variants.filterMap fun variant =>
        (lookupId variant.id formVariants).map fun f => outputRow f variant) ∧
    (emitVariants formVariants variants).map OutputVariant.options =
      (variants.filter fun v => (lookupId v.id formVariants).isSome).map
        GeneratedVariant.options :=
  ⟨emitVariants_eq_filterMap formVariants variants,
   emitVariants_options formVariants variants⟩

/-- C7: reconciliation only appends to the previous record, so entries whose
id is no longer generated stay unchanged in place; and the emitted payload
only contains rows of currently generated variants. -/
theorem reconcileVariants_frame (currentVariants : List (String × VariantForm))
    (variants : List GeneratedVariant)
    (formVariants : List (String × WatchVariantForm)) :
    (∃ added, reconcileVariants currentVariants variants =
        currentVariants ++ added ∧ ∀ p ∈ added, p.2 = initialVariantForm) ∧
    List.Sublist ((emitVariants formVariants variants).map OutputVariant.options)
      (variants.map GeneratedVariant.options) := by
  constructor
  · exact reconcileVariants_append currentVariants variants
  · rw [emitVariants_options]
    exact (List.filter_sublist variants).map GeneratedVariant.options

/-- C10: every emitted row comes from a generated variant and a matching
record entry, with each missing field defaulted: enabled to true, sku,
price and stock to the empty string. -/
theorem emitVariants_defaults (formVariants : List (String × WatchVariantForm))
    (variants : List GeneratedVariant) (row : OutputVariant)
    (h : row ∈ emitVariants formVariants variants) :
    ∃ variant ∈ variants, ∃ formVariant,
      lookupId variant.id formVariants = some formVariant ∧
      row.enabled = formVariant.enabled.getD true ∧
      row.sku = formVariant.sku.getD "" ∧
      row.price = formVariant.price.getD "" ∧
      row.stock = formVariant.stock.getD "" ∧
      row.options = variant.options := by
  rw [emitVariants_eq_filterMap] at h
  obtain ⟨v, hv, hf⟩ := List.mem_filterMap.mp h
  cases hl : lookupId v.id formVariants with
  | none => rw [hl] at hf; cases hf
  | some f =>
      rw [hl] at hf
      simp only [Option.map_some', Option.some.injEq] at hf
      subst hf
      exact ⟨v, hv, f, hl, rfl, rfl, rfl, rfl, rfl⟩

/-- Witness for C10: a record entry with only the sku present; the emitted
row defaults the other three fields. -/
theorem emitVariants_defaults_witness :
    ({ enabled := true, sku := "RED-1", price := "", stock := "",
       options := [{ name := "Color", value := "Red", id := "r" }] } :
        OutputVariant) ∈
      emitVariants
        [("r", { enabled := none, sku := some ("RED-1"), price := none,
                 stock := none })]
        [{ id := "r", name := "Red", values := ["Red"],
           options := [{ name := "Color", value := "Red", id := "r" }],
           enabled := true, sku := "", price := "", stock := "" }] ∧
    (∃ variant ∈
        ([{ id := "r", name := "Red", values := ["Red"],
            options := [{ name := "Color", value := "Red", id := "r" }],
            enabled := true, sku := "", price := "", stock := "" }] :
          List GeneratedVariant), ∃ formVariant,
      lookupId variant.id
          [("r", ({ enabled := none, sku := some ("RED-1"), price := none,
                    stock := none } : WatchVariantForm))] = some formVariant ∧
      ({ enabled := true, sku := "RED-1", price := "", stock := "",
         options := [{ name := "Color", value := "Red", id := "r" }] } :
          OutputVariant).enabled = formVariant.enabled.getD true ∧
      ({ enabled := true, sku := "RED-1", price := "", stock := "",
         options := [{ name := "Color", value := "Red", id := "r" }] } :
          OutputVariant).sku = formVariant.sku.getD "" ∧
      ({ enabled := true, sku := "RED-1", price := "", stock := "",
         options := [{ name := "Color", value := "Red", id := "r" }] } :
          OutputVariant).price = formVariant.price.getD "" ∧
      ({ enabled := true, sku := "RED-1", price := "", stock := "",
         options := [{ name := "Color", value := "Red", id := "r" }] } :
          OutputVariant).stock = formVariant.stock.getD "" ∧
      ({ enabled := true, sku := "RED-1", price := "", stock := "",
         options := [{ name := "Color", value := "Red", id := "r" }] } :
          OutputVariant).options = variant.options) :=
  ⟨by decide,
    emitVariants_defaults
      [("r", { enabled := none, sku := some ("RED-1"), price := none,
               stock := none })]
      [{ id := "r", name := "Red", values := ["Red"],
         options := [{ name := "Color", value := "Red", id := "r" }],
         enabled := true, sku := "", price := "", stock := "" }]
      { enabled := true, sku := "RED-1", price := "", stock := "",
        options := [{ name := "Color", value := "Red", id := "r" }] }
      (by decide)⟩

/-- C8: two valid groups, the first with two values and the second with one,
generate exactly two variants in order, the first group varying slowest,
with ids the dash join and values the selected value strings. -/
theorem generateVariants_pair (nameA nameB : String) (a1 a2 b1 : OptionValue)
    (hA : nameA ≠ "") (hB : nameB ≠ "") :
    generateVariants
        [{ name := nameA, values := [a1, a2] },
         { name := nameB, values := [b1] }] =
      [{ id := a1.id ++ "-" ++ b1.id, name := a1.value ++ " " ++ b1.value,
         values := [a1.value, b1.value],
         options := [{ name := nameA, value := a1.value, id := a1.id },
                     { name := nameB, value := b1.value, id := b1.id }],
         enabled := true, sku := "", price := "", stock := "" },
       { id := a2.id ++ "-" ++ b1.id, name := a2.value ++ " " ++ b1.value,
         values := [a2.value, b1.value],
         options := [{ name := nameA, value := a2.value, id := a2.id },
                     { name := nameB, value := b1.value, id := b1.id }],
         enabled := true, sku := "", price := "", stock := "" }] := by
  have hvA : isValidGroup { name := nameA, values := [a1, a2] } = true := by
    simp [isValidGroup, bne_iff_ne, hA]
  have hvB : isValidGroup { name := nameB, values := [b1] } = true := by
    simp [isValidGroup, bne_iff_ne, hB]
  simp [generateVariants, List.filter_cons, hvA, hvB, generateCombinations,
    mkCombinationVariant, joinSep]

/-- Witness for C8 at concrete groups A and B. -/
theorem generateVariants_pair_witness :
    ("A" : String) ≠ "" ∧ ("B" : String) ≠ "" ∧
    generateVariants
        [{ name := "A",
           values := [{ value := "va1", id := "a1" },
                      { value := "va2", id := "a2" }] },
         { name := "B", values := [{ value := "vb1", id := "b1" }] }] =
      [{ id := "a1" ++ "-" ++ "b1", name := "va1" ++ " " ++ "vb1",
         values := ["va1", "vb1"],
         options := [{ name := "A", value := "va1", id := "a1" },
                     { name := "B", value := "vb1", id := "b1" }],
         enabled := true, sku := "", price := "", stock := "" },
       { id := "a2" ++ "-" ++ "b1", name := "va2" ++ " " ++ "vb1",
         values := ["va2", "vb1"],
         options := [{ name := "A", value := "va2", id := "a2" },
                     { name := "B", value := "vb1", id := "b1" }],
         enabled := true, sku := "", price := "", stock := "" }] :=
  ⟨by decide, by decide,
    generateVariants_pair "A" "B" { value := "va1", id := "a1" }
      { value := "va2", id := "a2" } { value := "vb1", id := "b1" }
      (by decide) (by decide)⟩

/-- C9: generateVariants is a pure function of its input: structurally equal
inputs give structurally equal outputs, with the same ids in the same
order. -/
theorem generateVariants_deterministic (groups1 groups2 : List OptionGroup)
    (h : groups1 = groups2) :
    generateVariants groups1 = generateVariants groups2 ∧
      (generateVariants groups1).map GeneratedVariant.id =
        (generateVariants groups2).map GeneratedVariant.id := by
  subst h
  exact ⟨rfl, rfl⟩

/-- Witness for C9 at a concrete one-group input. -/
theorem generateVariants_deterministic_witness :
    ([{ name := "Color", values := [{ value := "Red", id := "r" }] }] :
        List OptionGroup) =
      [{ name := "Color", values := [{ value := "Red", id := "r" }] }] ∧
    (generateVariants [{ name := "Color", values := [{ value := "Red", id := "r" }] }] =
      generateVariants [{ name := "Color", values := [{ value := "Red", id := "r" }] }] ∧
    (generateVariants [{ name := "Color", values := [{ value := "Red", id := "r" }] }]).map GeneratedVariant.id =
      (generateVariants [{ name := "Color", values := [{ value := "Red", id := "r" }] }]).map GeneratedVariant.id) :=
  ⟨rfl,
    generateVariants_deterministic
      [{ name := "Color", values := [{ value := "Red", id := "r" }] }]
      [{ name := "Color", values := [{ value := "Red", id := "r" }] }] rfl⟩

/-- Counterexample for C4 as stated: in collidingGroups the value ids are
unique within each group, yet the combination ids "x"-"y-z" and "x-y"-"z"
both join to "x-y-z", so the generated id list has a duplicate. -/
theorem generateVariants_id_clash :
    (∀ g ∈ collidingGroups, (g.values.map OptionValue.id).Nodup) ∧
    ¬ ((generateVariants collidingGroups).map GeneratedVariant.id).Nodup := by
  decide

/-- Every member of the lexicographic product selects one element per choice
list. -/
theorem specLexProduct_mem_length (lss : List (List α)) (c : List α)
    (hc : c ∈ specLexProduct lss) : c.length = lss.length := by
  induction lss generalizing c with
  | nil =>
      simp only [specLexProduct, List.mem_singleton] at hc
      subst hc
      rfl
  | cons xs rest ih =>
      simp only [specLexProduct, List.mem_flatMap, List.mem_map] at hc
      obtain ⟨x, hx, tail, htail, rfl⟩ := hc
      simp [ih tail htail]

/-- Every element of a member of the lexicographic product comes from one of
the choice lists. -/
theorem specLexProduct_mem_mem (lss : List (List α)) (c : List α)
    (hc : c ∈ specLexProduct lss) (s : α) (hs : s ∈ c) : ∃ l ∈ lss, s ∈ l := by
  induction lss generalizing c with
  | nil =>
      simp only [specLexProduct, List.mem_singleton] at hc
      subst hc
      cases hs
  | cons xs rest ih =>
      simp only [specLexProduct, List.mem_flatMap, List.mem_map] at hc
      obtain ⟨x, hx, tail, htail, rfl⟩ := hc
      rcases List.mem_cons.mp hs with rfl | hs2
      · exact ⟨xs, List.mem_cons_self xs rest, hx⟩
      · obtain ⟨l, hl, hsl⟩ := ih tail htail hs2
        exact ⟨l, List.mem_cons_of_mem xs hl, hsl⟩

/-- The first dash delimits a dash-free block: equal concatenations with
dash-free heads have equal heads and equal tails. -/
theorem dash_cancel (a : List Char) :
    ∀ (b x y : List Char), ('-' : Char) ∉ a → ('-' : Char) ∉ b →
      a ++ '-' :: x = b ++ '-' :: y → a = b ∧ x = y := by
  induction a with
  | nil =>
      intro b x y ha hb h
      cases b with
      | nil =>
          simp only [List.nil_append, List.cons.injEq] at h
          exact ⟨rfl, h.2⟩
      | cons c bs =>
          simp only [List.nil_append, List.cons_append, List.cons.injEq] at h
          obtain ⟨h1, h2⟩ := h
          subst h1
          exact absurd (List.mem_cons_self _ _) hb
  | cons c as ih =>
      intro b x y ha hb h
      cases b with
      | nil =>
          simp only [List.cons_append, List.nil_append, List.cons.injEq] at h
          obtain ⟨h1, h2⟩ := h
          subst h1
          exact absurd (List.mem_cons_self _ _) ha
      | cons d bs =>
          simp only [List.cons_append, List.cons.injEq] at h
          obtain ⟨h1, h2⟩ := h
          have ha2 : ('-' : Char) ∉ as := fun hm => ha (List.mem_cons_of_mem c hm)
          have hb2 : ('-' : Char) ∉ bs := fun hm => hb (List.mem_cons_of_mem d hm)
          obtain ⟨hab, hxy⟩ := ih bs x y ha2 hb2 h2
          exact ⟨by rw [h1, hab], hxy⟩

/-- Strings with equal character data are equal. -/
theorem string_data_inj {s t : String} (h : s.data = t.data) : s = t :=
  congrArg String.mk h

/-- Unfolding the join on a list with at least two elements. -/
theorem joinSep_cons_cons (sep s t : String) (r : List String) :
    joinSep sep (s :: t :: r) = s ++ sep ++ joinSep sep (t :: r) := rfl

/-- On lists of the same length whose strings are dash-free, the dash join
is injective. -/
theorem joinSep_dash_inj (c1 : List String) :
    ∀ (c2 : List String), c1.length = c2.length →
      (∀ s ∈ c1, ('-' : Char) ∉ s.data) → (∀ s ∈ c2, ('-' : Char) ∉ s.data) →
      joinSep ("-") c1 = joinSep ("-") c2 → c1 = c2 := by
  induction c1 with
  | nil =>
      intro c2 hlen h1 h2 heq
      cases c2 with
      | nil => rfl
      | cons b bs => simp at hlen
  | cons a as ih =>
      intro c2 hlen h1 h2 heq
      cases c2 with
      | nil => simp at hlen
      | cons b bs =>
          cases as with
          | nil =>
              cases bs with
              | nil =>
                  have hab : a = b := heq
                  rw [hab]
              | cons b2 bs2 => simp at hlen
          | cons a2 as2 =>
              cases bs with
              | nil => simp at hlen
              | cons b2 bs2 =>
                  rw [joinSep_cons_cons, joinSep_cons_cons] at heq
                  have hdata : a.data ++ '-' :: (joinSep ("-") (a2 :: as2)).data =
                      b.data ++ '-' :: (joinSep ("-") (b2 :: bs2)).data := by
                    have hd := congrArg String.data heq
                    simpa [String.data_append, List.append_assoc] using hd
                  obtain ⟨hab, hrest⟩ :=
                    dash_cancel a.data b.data _ _
                      (h1 a (List.mem_cons_self _ _))
                      (h2 b (List.mem_cons_self _ _)) hdata
                  have hab2 : a = b := string_data_inj hab
                  have hrest2 : joinSep ("-") (a2 :: as2) = joinSep ("-") (b2 :: bs2) :=
                    string_data_inj hrest
                  have hlen2 : (a2 :: as2).length = (b2 :: bs2).length := by
                    simpa using hlen
                  have htail := ih (b2 :: bs2) hlen2
                    (fun s hs => h1 s (List.mem_cons_of_mem a hs))
                    (fun s hs => h2 s (List.mem_cons_of_mem b hs)) hrest2
                  rw [hab2, htail]

/-- The lexicographic product of duplicate-free choice lists is
duplicate-free. -/
theorem specLexProduct_nodup (lss : List (List α))
    (hnd : ∀ l ∈ lss, l.Nodup) : (specLexProduct lss).Nodup := by
  induction lss with
  | nil => simp [specLexProduct]
  | cons xs rest ih =>
      simp only [specLexProduct]
      rw [List.nodup_flatMap]
      constructor
      · intro x hx
        refine (ih fun l hl => hnd l (List.mem_cons_of_mem xs hl)).map_on ?_
        intro t1 ht1 t2 ht2 ht
        simpa using ht
      · refine List.Pairwise.imp ?_ (hnd xs (List.mem_cons_self xs rest))
        intro a b hab c hc hcb
        simp only [List.mem_map] at hc hcb
        obtain ⟨t1, ht1, rfl⟩ := hc
        obtain ⟨t2, ht2, heq⟩ := hcb
        exact hab (by injection heq with h1 h2; exact h1.symm)

/-- Joining each member of the product of duplicate-free, dash-free choice
lists gives pairwise distinct strings. -/
theorem specLexProduct_join_nodup (lss : List (List String))
    (hnd : ∀ l ∈ lss, l.Nodup)
    (hdf : ∀ l ∈ lss, ∀ s ∈ l, ('-' : Char) ∉ s.data) :
    ((specLexProduct lss).map (joinSep ("-"))).Nodup := by
  refine (specLexProduct_nodup lss hnd).map_on ?_
  intro c1 h1m c2 h2m heq
  refine joinSep_dash_inj c1 c2 ?_ ?_ ?_ heq
  · rw [specLexProduct_mem_length lss c1 h1m, specLexProduct_mem_length lss c2 h2m]
  · intro s hs
    obtain ⟨l, hl, hsl⟩ := specLexProduct_mem_mem lss c1 h1m s hs
    exact hdf l hl s hsl
  · intro s hs
    obtain ⟨l, hl, hsl⟩ := specLexProduct_mem_mem lss c2 h2m s hs
    exact hdf l hl s hsl

/-- Mapping pointwise commutes with taking the lexicographic product. -/
theorem specLexProduct_map (f : α → β) (lss : List (List α)) :
    (specLexProduct lss).map (List.map f) = specLexProduct (lss.map (List.map f)) := by
  induction lss with
  | nil => rfl
  | cons xs rest ih =>
      simp only [specLexProduct, List.map_flatMap, List.map_map, List.map_cons,
        List.flatMap_map]
      refine List.flatMap_congr fun x hx => ?_
      rw [← ih, List.map_map]
      refine List.map_congr_left fun t ht => ?_
      simp

/-- C4 (amended): when the value ids are unique within each group and no
value id contains the dash separator character, no two generated
combinations share an id. -/
theorem generateVariants_id_nodup (groups : List OptionGroup)
    (hnd : ∀ g ∈ groups, (g.values.map OptionValue.id).Nodup)
    (hdf : ∀ g ∈ groups, ∀ v ∈ g.values, ('-' : Char) ∉ v.id.data) :
    ((generateVariants groups).map GeneratedVariant.id).Nodup := by
  unfold generateVariants
  by_cases h0 : groups.length = 0
  · simp [h0]
  · simp only [h0, if_false]
    by_cases h1 : (groups.filter isValidGroup).length = 0
    · simp [h1]
    · simp only [h1, if_false]
      rw [generateCombinations_eq, List.map_map]
      have hcomp : (GeneratedVariant.id ∘ fun c => mkCombinationVariant ([] ++ c)) =
          fun c : List VariantOption => joinSep ("-") (c.map VariantOption.id) := by
        funext c
        simp [mkCombinationVariant]
      rw [hcomp]
      have hsplit :
          ((specLexProduct ((groups.filter isValidGroup).map groupOptions)).map
            fun c => joinSep ("-") (c.map VariantOption.id)) =
          ((specLexProduct ((groups.filter isValidGroup).map groupOptions)).map
            (List.map VariantOption.id)).map (joinSep ("-")) := by
        rw [List.map_map]
        rfl
      rw [hsplit, specLexProduct_map]
      refine specLexProduct_join_nodup _ ?_ ?_
      · intro l hl
        simp only [List.map_map, List.mem_map, Function.comp] at hl
        obtain ⟨g, hg, rfl⟩ := hl
        have h306 : (groupOptions g).map VariantOption.id =
            g.values.map OptionValue.id := by
          simp [groupOptions, List.map_map]
        rw [h306]
        exact hnd g (List.mem_of_mem_filter hg)
      · intro l hl s hs
        simp only [List.map_map, List.mem_map, Function.comp] at hl
        obtain ⟨g, hg, rfl⟩ := hl
        have hg2 := List.mem_of_mem_filter hg
        simp only [groupOptions, List.map_map, List.mem_map, Function.comp] at hs
        obtain ⟨v, hv, rfl⟩ := hs
        exact hdf g hg2 v hv

/-- Witness for the amended C4 at dash-free concrete groups. -/
theorem generateVariants_id_nodup_witness :
    (∀ g ∈ ([{ name := "A",
               values := [{ value := "va1", id := "a1" },
                          { value := "va2", id := "a2" }] },
             { name := "B", values := [{ value := "vb1", id := "b1" }] }] :
              List OptionGroup),
        (g.values.map OptionValue.id).Nodup) ∧
    (∀ g ∈ ([{ name := "A",
               values := [{ value := "va1", id := "a1" },
                          { value := "va2", id := "a2" }] },
             { name := "B", values := [{ value := "vb1", id := "b1" }] }] :
              List OptionGroup),
        ∀ v ∈ g.values, ('-' : Char) ∉ v.id.data) ∧
    ((generateVariants
        [{ name := "A",
           values := [{ value := "va1", id := "a1" },
                      { value := "va2", id := "a2" }] },
         { name := "B", values := [{ value := "vb1", id := "b1" }] }]).map
      GeneratedVariant.id).Nodup :=
  ⟨by decide, by decide,
    generateVariants_id_nodup
      [{ name := "A",
         values := [{ value := "va1", id := "a1" },
                    { value := "va2", id := "a2" }] },
       { name := "B", values := [{ value := "vb1", id := "b1" }] }]
      (by decide) (by decide)⟩
